import Mathlib

/-!
Verification of the medical-report extraction pipeline (sync runner, batch
runner, schema normalisation) against its natural-language specification.

The Python sources are shallowly embedded:
* JSON values decoded by `json.loads` become the inductive `JVal`; a decoded
  JSON object is an association list `List (String × JVal)` with Python-dict
  lookup semantics (last assignment wins).
* `dataclass Record` becomes the structure `Record`.
* `schema.normalise_extraction` becomes `normaliseExtraction`.
* `sync_runner._extract_429_retry_delay` becomes `extract429RetryDelay`
  (the three regular-expression patterns are hand-compiled to character-list
  scanners with the same match semantics).
* `sync_runner._call_with_retry` becomes `callWithRetry`; sleeps are recorded
  in a list instead of being performed.
* `sync_runner.RateLimiter.wait` becomes `rlGrants`: the monotonic clock is an
  explicit sequence of observed times, and the grant instant of each call is
  returned.
* `sync_runner.process_records` becomes `processRecordsModel`: the network is
  an explicit per-task result, and the nondeterministic completion order of
  `asyncio.as_completed` is an explicit permutation parameter.
* `batch_runner.write_request_jsonl` / `parse_batch_results` / `poll_batch` /
  `run_batch` become `writeRequestJsonl` / `parseBatchResults` /
  `pollBatchModel` / `runBatchModel`; provider responses (upload result, poll
  statuses, refresh statuses, download attempts) are explicit parameters, and
  the decoding of the result artifact's bytes into JSON lines is taken as
  given (a `List BatchLine`).
Machine floats in the source only ever hold small decimal values here, so they
are modelled by `ℚ`.
-/

/-! ### Generic character/list helpers (substring search, Python `str` ops) -/

/-- Boolean prefix test on character lists. -/
def isPrefOf : List Char → List Char → Bool
  | [], _ => true
  | _ :: _, [] => false
  | a :: as, b :: bs => a == b && isPrefOf as bs

/-- Boolean substring test: does `hay` contain `needle` as a contiguous run?
Models Python's `needle in hay`. -/
def containsSub (needle : List Char) : List Char → Bool
  | [] => needle.isEmpty
  | c :: cs => isPrefOf needle (c :: cs) || containsSub needle cs

/-- Python `str.lower()` (ASCII case folding suffices for the markers used). -/
def lowerStr (s : String) : List Char :=
  s.data.map Char.toLower

/-- Python truthiness of an optional string (`None` and `""` are falsy). -/
def truthyStr : Option String → Bool
  | none => false
  | some s => !(s == "")

/-- Python `a or b` on two optional strings (first truthy value wins). -/
def pyOrStr (a b : Option String) : Option String :=
  if truthyStr a then a else b

/-! ### JSON values and Python-dict association lists -/

/-- A decoded JSON value (the image of `json.loads`). -/
inductive JVal where
  | null : JVal
  | bool (b : Bool) : JVal
  | num (q : ℚ) : JVal
  | str (s : String) : JVal
  | arr (xs : List JVal) : JVal
  | obj (fields : List (String × JVal)) : JVal

/-- Python-dict lookup on an association list built by repeated assignment:
the most recent assignment to a key wins. -/
def pyDictGet {β : Type} (d : List (String × β)) (k : String) : Option β :=
  (d.reverse.find? (fun p => p.1 == k)).map Prod.snd

/-- Python `dict.get(k)` on a decoded JSON object: both an absent key and a
key holding JSON `null` yield `None`. -/
def pyGet (raw : List (String × JVal)) (k : String) : Option JVal :=
  match pyDictGet raw k with
  | some JVal.null => none
  | v => v

/-- Python `k in d` (key presence; a key holding `null` still counts). -/
def pyHasKey (raw : List (String × JVal)) (k : String) : Bool :=
  (pyDictGet raw k).isSome

/-- Python `dict.setdefault(k, v)`: insert `v` under `k` only when the key is
absent (a key holding `null` is present, so it is kept). -/
def pySetdefault (raw : List (String × JVal)) (k : String) (v : JVal) :
    List (String × JVal) :=
  if pyHasKey raw k then raw else raw ++ [(k, v)]

/-! ### Data model: records, templates, extraction results -/

/-- `sync_runner.Record`: one unit of work read from the CSV. `row_data` is
pass-through payload; its values are modelled as strings. -/
structure Record where
  id_value : String
  text : String
  row_data : List (String × String)
deriving DecidableEq, Repr

/-- `templates.FieldConfig`. -/
structure FieldConfig where
  name : String
  display_name : String := ""
  description : String := ""
  field_type : String := "string"
  enum_values : Option (List String) := none
  required : Bool := false
  example_value : String := ""  -- `example` in the source; renamed (Lean keyword)
deriving DecidableEq, Repr

/-- `templates.ExtractionTemplate` (only the parts the runners consume:
the declared field list; prompt text is opaque to the claims). -/
structure ExtractionTemplate where
  template_id : String
  template_name : String := ""
  description : String := ""
  fields : List FieldConfig
deriving DecidableEq, Repr

/-- `schema.ExtractionResult`: the record id plus the dynamic `_data` dict. -/
structure ExtractionResult where
  id_value : String := ""
  _data : List (String × JVal) := []

/-- `schema._clean_str`: strip a string, mapping a whitespace-only result to
`None`. Non-strings are handled at the call site. -/
def cleanStr (s : String) : Option String :=
  let text := s.trim
  if text = "" then none else some text

/-- The value `schema.normalise_extraction` stores for one template field. -/
def fieldValue (raw : List (String × JVal)) (name : String) : JVal :=
  match pyGet raw name with
  | some (JVal.str s) =>
      match cleanStr s with
      | some cleaned => JVal.str cleaned
      | none => JVal.str ""
  | some v => v
  | none => JVal.str ""

/-- The id `schema.normalise_extraction` extracts from the raw payload:
`raw.get("id_value")` if it is a string, else `raw.get("id")` if it is a
string, else the dataclass default `""`. -/
def extractedId (raw : List (String × JVal)) : String :=
  match pyGet raw "id_value" with
  | some (JVal.str s) => s.trim
  | _ =>
      match pyGet raw "id" with
      | some (JVal.str s) => s.trim
      | _ => ""

/-- `schema.normalise_extraction`: normalise a raw decoded JSON payload
against the template's declared field list. -/
def normaliseExtraction (raw : List (String × JVal))
    (template : ExtractionTemplate) : ExtractionResult :=
  { id_value := extractedId raw
    _data := template.fields.foldl
      (fun d f => d ++ [(f.name, fieldValue raw f.name)]) [] }

/-! ### Sync runner: rate limiter -/

/-- `RateLimiter.__init__`: `self.interval = 60.0 / max(rpm, 1)`. -/
def rlInterval (rpm : ℕ) : ℚ :=
  60 / (max rpm 1 : ℕ)

/-- One serialized `RateLimiter.wait` call: given the current marker `slot`
and the clock reading `now`, the caller is granted at `max now slot` (it
sleeps `slot - now` when `now < slot`) and the marker becomes
`max now slot + itv`.  The lock is held for the whole body, so a run of the
limiter is the left-to-right fold below over the observed clock readings. -/
def rlGrants (itv : ℚ) (slot : ℚ) : List ℚ → List ℚ
  | [] => []
  | now :: rest => max now slot :: rlGrants itv (max now slot + itv) rest

/-! ### Sync runner: quota-delay extraction (`_extract_429_retry_delay`)

The three `re.search` patterns are compiled by hand.  For each of them the
greedy sub-matches are forced (the character after a maximal `[\d.]+` or `\s*`
run can never restart the remainder of the pattern), so a per-position matcher
needs no backtracking, and `re.search` is the first position at which the
matcher succeeds. -/

/-- Case-insensitive literal match (`re.IGNORECASE`); returns the rest. -/
def matchLitCI : List Char → List Char → Option (List Char)
  | [], rest => some rest
  | _ :: _, [] => none
  | p :: ps, c :: cs => if p.toLower == c.toLower then matchLitCI ps cs else none

/-- Characters matched by the regex class `[\d.]`. -/
def isDigitDot (c : Char) : Bool :=
  c.isDigit || c == '.'

/-- Pattern 1 at one position: `retry in ([\d.]+)\s*s` (ignoring case). -/
def tryRetryInAt (cs : List Char) : Option (List Char) :=
  match matchLitCI "retry in ".data cs with
  | none => none
  | some rest =>
      let grp := rest.takeWhile isDigitDot
      if grp.isEmpty then none
      else
        match (rest.dropWhile isDigitDot).dropWhile Char.isWhitespace with
        | c :: _ => if c.toLower == 's' then some grp else none
        | [] => none

/-- Optional quote: the regex `["\']?` at the head of the input. -/
def dropOptQuote : List Char → List Char
  | '"' :: cs => cs
  | '\'' :: cs => cs
  | cs => cs

/-- Shared prefix of patterns 2 and 3: `retryDelay["\']?\s*:\s*["\']?`
(ignoring case); returns the input right after it. -/
def matchRetryDelayPrefix (cs : List Char) : Option (List Char) :=
  match matchLitCI "retryDelay".data cs with
  | none => none
  | some r1 =>
      match (dropOptQuote r1).dropWhile Char.isWhitespace with
      | ':' :: r2 => some (dropOptQuote (r2.dropWhile Char.isWhitespace))
      | _ => none

/-- Pattern 2 at one position: `retryDelay["\']?\s*:\s*["\']?(\d+)`. -/
def tryRetryDelayIntAt (cs : List Char) : Option (List Char) :=
  match matchRetryDelayPrefix cs with
  | none => none
  | some r =>
      let grp := r.takeWhile Char.isDigit
      if grp.isEmpty then none else some grp

/-- Pattern 3 at one position: `retryDelay["\']?\s*:\s*["\']?([\d.]+)\s*s`. -/
def tryRetryDelayFloatAt (cs : List Char) : Option (List Char) :=
  match matchRetryDelayPrefix cs with
  | none => none
  | some r =>
      let grp := r.takeWhile isDigitDot
      if grp.isEmpty then none
      else
        match (r.dropWhile isDigitDot).dropWhile Char.isWhitespace with
        | c :: _ => if c.toLower == 's' then some grp else none
        | [] => none

/-- `re.search`: try the per-position matcher at each position, left to
right, and return the first captured group. -/
def searchBy (tryAt : List Char → Option (List Char)) : List Char → Option (List Char)
  | [] => tryAt []
  | c :: cs =>
      match tryAt (c :: cs) with
      | some g => some g
      | none => searchBy tryAt cs

/-- Decimal value of a digit list (most significant first). -/
def decVal (ds : List Char) : ℕ :=
  ds.foldl (fun acc c => acc * 10 + (c.toNat - 48)) 0

/-- Python `float()` on a string drawn from the class `[\d.]+`: accepted
exactly when it has at most one dot and at least one digit (so `"5"`,
`"5."`, `".5"`, `"5.0"` parse; `""`, `"."`, `"5.0."` raise `ValueError`).
The value is kept as `(integer part, fraction numerator, fraction length)`
so that concrete runs stay inside `ℕ`; `qOfParts` interprets it in `ℚ`. -/
def parseFloatParts (cs : List Char) : Option (ℕ × ℕ × ℕ) :=
  let intPart := cs.takeWhile Char.isDigit
  match cs.dropWhile Char.isDigit with
  | [] => if cs.isEmpty then none else some (decVal cs, 0, 0)
  | '.' :: frac =>
      if frac.all Char.isDigit && !(intPart.isEmpty && frac.isEmpty) then
        some (decVal intPart, decVal frac, frac.length)
      else none
  | _ => none

/-- The rational a parsed float denotes. -/
def qOfParts : ℕ × ℕ × ℕ → ℚ
  | (i, f, n) => (i : ℚ) + (f : ℚ) / (10 : ℚ) ^ n

/-- Python `float()` on a `[\d.]+` capture, as a rational. -/
def parseFloatPy (cs : List Char) : Option ℚ :=
  (parseFloatParts cs).map qOfParts

/-- `sync_runner._extract_429_retry_delay`, in parts: try the three patterns
in order; a pattern whose captured group does not parse as a float is
skipped (`except ValueError: continue`). -/
def extract429Parts (errorMsg : String) : Option (ℕ × ℕ × ℕ) :=
  let cs := errorMsg.data
  match (searchBy tryRetryInAt cs).bind parseFloatParts with
  | some p => some p
  | none =>
      match (searchBy tryRetryDelayIntAt cs).bind parseFloatParts with
      | some p => some p
      | none => (searchBy tryRetryDelayFloatAt cs).bind parseFloatParts

/-- `sync_runner._extract_429_retry_delay`: the suggested delay in seconds. -/
def extract429RetryDelay (errorMsg : String) : Option ℚ :=
  (extract429Parts errorMsg).map qOfParts

/-! ### Sync runner: retry policy (`_call_with_retry`) -/

/-- The quota classification on line 176 of `sync_runner.py`:
`"429" in s or "RESOURCE_EXHAUSTED" in s or "quota" in s.lower()`. -/
def is429 (errorStr : String) : Bool :=
  containsSub "429".data errorStr.data ||
    containsSub "RESOURCE_EXHAUSTED".data errorStr.data ||
    containsSub "quota".data (lowerStr errorStr)

/-- The backoff delay `_call_with_retry` sleeps after a non-final failed
attempt (lines 181-194 of `sync_runner.py`).  `if suggested_delay:` is a
Python truthiness test, so an extracted delay of `0.0` falls back to the
exponential branch. -/
def computeDelay (backoff : ℚ) (errorStr : String) (attempt : ℕ) : ℚ :=
  if is429 errorStr then
    match extract429RetryDelay errorStr with
    | some d => if d ≠ 0 then min (d + 2) 120 else backoff ^ attempt * 10
    | none => backoff ^ attempt * 10
  else
    backoff ^ attempt

/-- Result of a retried call: the outcome, the recorded backoff sleeps, and
the number of attempts made. -/
structure RetryTrace (α : Type) where
  result : Except String α
  sleeps : List ℚ
  attempts : ℕ
deriving Repr

/-- The loop body of `_call_with_retry`: `op i` is the outcome of the i-th
attempt (the rate-limiter wait is not part of the backoff sleeps), and
`remaining` counts the attempts still permitted after the current one
(`remaining = 0` exactly when `attempt >= max_retries`, where the last
error is re-raised). -/
def callWithRetryGo {α : Type} (op : ℕ → Except String α) (backoff : ℚ) :
    ℕ → ℕ → RetryTrace α
  | attempt, remaining =>
      match op attempt with
      | Except.ok a => ⟨Except.ok a, [], 1⟩
      | Except.error e =>
          match remaining with
          | 0 => ⟨Except.error e, [], 1⟩
          | r + 1 =>
              let t := callWithRetryGo op backoff (attempt + 1) r
              ⟨t.result, computeDelay backoff e attempt :: t.sleeps, t.attempts + 1⟩

/-- `sync_runner._call_with_retry`: up to `maxRetries + 1` attempts. -/
def callWithRetry {α : Type} (op : ℕ → Except String α) (maxRetries : ℕ)
    (backoff : ℚ) : RetryTrace α :=
  callWithRetryGo op backoff 0 maxRetries

/-! ### Sync runner: worker and dispatcher (`process_records`) -/

/-- One per-record outcome: the record, the extraction if any, the error
string if any (the tuple `process_records` collects). -/
def Outcome : Type := Record × Option ExtractionResult × Option String

/-- The body of `process_records.worker` for one record.  `callRes` is the
combined result of the retried chat call, the `choices/message/content`
indexing and `json.loads`: the worker's `try` block turns any exception from
those steps into an error outcome, so they are modelled as one
`Except String` value carrying the decoded JSON object on success. -/
def workerModel (record : Record)
    (callRes : Except String (List (String × JVal)))
    (template : ExtractionTemplate) : Outcome :=
  match callRes with
  | Except.error e => (record, none, some e)
  | Except.ok data =>
      let data' := pySetdefault data "id_value" (JVal.str record.id_value)
      let result := normaliseExtraction data' template
      (record, some { result with id_value := record.id_value }, none)

/-- `sync_runner.process_records`: one task per record, created in input
order (`tasks = [worker(rec) for rec in records]`), results appended in the
order `asyncio.as_completed` yields them.  `order` is that completion
order, an arbitrary permutation of the task indices. -/
def processRecordsModel (records : List Record)
    (callRes : ℕ → Except String (List (String × JVal)))
    (template : ExtractionTemplate)
    (order : List (Fin records.length)) : List Outcome :=
  order.map (fun i => workerModel (records.get i) (callRes i.val) template)

/-! ### Batch runner: request file and identity map (`write_request_jsonl`) -/

/-- One decimal digit as a character. -/
def decDigitChar : ℕ → Char
  | 0 => '0' | 1 => '1' | 2 => '2' | 3 => '3' | 4 => '4'
  | 5 => '5' | 6 => '6' | 7 => '7' | 8 => '8' | 9 => '9'
  | _ => '*'

/-- Fuel-driven decimal printer (most significant digit first). -/
def natToDecAux : ℕ → ℕ → List Char
  | 0, _ => []
  | fuel + 1, n =>
      if n < 10 then [decDigitChar n]
      else natToDecAux fuel (n / 10) ++ [decDigitChar (n % 10)]

/-- Python `str(n)` for a natural number. -/
def natToDec (n : ℕ) : String :=
  ⟨natToDecAux (n + 1) n⟩

/-- The base id used for a record: `record.id_value or "row"`
(the empty string is falsy). -/
def baseIdOf (record : Record) : String :=
  if record.id_value = "" then "row" else record.id_value

/-- The submission key generated for a base id already seen `count` times:
the id itself the first time, `f"{base_id}__{count+1}"` afterwards. -/
def subKey (base : String) (count : ℕ) : String :=
  if count = 0 then base else base ++ "__" ++ natToDec (count + 1)

/-- The loop of `write_request_jsonl`: thread the `seen_counts` dict through
the records, emitting `(unique_id, record)` pairs in order.  The returned
list is both the JSONL line order and (with Python-dict lookup, i.e.
`pyDictGet`) the `id_map`. -/
def writeRequestKeysGo (seen : String → ℕ) : List Record → List (String × Record)
  | [] => []
  | record :: rest =>
      let base := baseIdOf record
      let count := seen base
      (subKey base count, record) ::
        writeRequestKeysGo (fun x => if x = base then count + 1 else seen x) rest

/-- `batch_runner.write_request_jsonl`, restricted to what it returns to the
caller: the submission keys paired with their originating records. -/
def writeRequestJsonl (records : List Record) : List (String × Record) :=
  writeRequestKeysGo (fun _ => 0) records

/-! ### Batch runner: result parsing (`parse_batch_results`) -/

/-- One decoded line of the result artifact.  On the Python side each line is
`json.loads`-ed into a dict; `custom_id` is `entry.get("custom_id")`.  The
rest of the entry is summarized by how lines 96-110 of `batch_runner.py`
consume it: `success content` stands for a truthy `response` with no `error`,
where `content` is the combined result of indexing
`response["body"]["choices"][0]["message"]["content"]` and `json.loads` of it
(the `try` block turns any exception from those steps, carried here as
`Except.error`, into that record's error outcome); `errorField msg` stands
for the `else` branch, with `msg = str(error)` when `error` is truthy and
`none` when both `response` and `error` are falsy. -/
inductive LinePayload where
  | success (content : Except String (List (String × JVal)))
  | errorField (msg : Option String)

/-- A decoded result line. -/
structure BatchLine where
  custom_id : Option String
  payload : LinePayload

/-- The outcome stored in `results_dict` for one matched line. -/
def processLine (record : Record) (p : LinePayload)
    (template : ExtractionTemplate) : Outcome :=
  match p with
  | LinePayload.success (Except.ok data) =>
      let data' := pySetdefault data "id_value" (JVal.str record.id_value)
      let extraction := normaliseExtraction data' template
      (record, some { extraction with id_value := record.id_value }, none)
  | LinePayload.success (Except.error exc) => (record, none, some exc)
  | LinePayload.errorField (some msg) => (record, none, some msg)
  | LinePayload.errorField none => (record, none, some "未知错误")

/-- `id_map.get(custom_id)` for one line (`None` when the key is absent or
the line has no `custom_id`). -/
def lineRecord (idMap : List (String × Record)) (l : BatchLine) : Option Record :=
  l.custom_id.bind (pyDictGet idMap)

/-- The first loop of `parse_batch_results`: fold the decoded lines into
`results_dict`, keyed by the *natural* id `record.id_value` of the record the
`custom_id` maps to; lines whose `custom_id` is not in `id_map` are skipped. -/
def buildResultsDict (idMap : List (String × Record))
    (template : ExtractionTemplate) (d : List (String × Outcome)) :
    List BatchLine → List (String × Outcome)
  | [] => d
  | l :: rest =>
      match lineRecord idMap l with
      | none => buildResultsDict idMap template d rest
      | some r =>
          buildResultsDict idMap template
            (d ++ [(r.id_value, processLine r l.payload template)]) rest

/-- The `Missing` sentinel outcome for a record with no returned line. -/
def missingOutcome (record : Record) : Outcome :=
  (record, none, some "批量任务无返回")

/-- `batch_runner.parse_batch_results`: one outcome per original input
record, in input order; records absent from `results_dict` get the
`Missing` sentinel. -/
def parseBatchResults (records : List Record) (idMap : List (String × Record))
    (lines : List BatchLine) (template : ExtractionTemplate) : List Outcome :=
  let dict := buildResultsDict idMap template [] lines
  records.map (fun rec => (pyDictGet dict rec.id_value).getD (missingOutcome rec))

/-! ### Batch runner: job lifecycle (`poll_batch`, `run_batch`) -/

/-- The slice of a retrieved batch-job object the controller reads. -/
structure BatchStatusRec where
  status : Option String
  output_file_id : Option String
deriving DecidableEq, Repr

/-- The terminal statuses `poll_batch` stops on. -/
def isTerminalStatus (st : BatchStatusRec) : Bool :=
  st.status == some "completed" || st.status == some "failed" ||
    st.status == some "cancelled"

/-- `poll_batch`'s `while True` loop: `stream i` is the i-th
`client.retrieve_batch` response.  The loop is unbounded in the source;
`fuel` bounds the modelled run, with `none` meaning the loop is still
polling after `fuel` iterations. -/
def pollAux (stream : ℕ → BatchStatusRec) : ℕ → ℕ → Option BatchStatusRec
  | _, 0 => none
  | i, fuel + 1 =>
      let st := stream i
      if isTerminalStatus st then some st else pollAux stream (i + 1) fuel

/-- `batch_runner.poll_batch`. -/
def pollBatchModel (stream : ℕ → BatchStatusRec) (fuel : ℕ) :
    Option BatchStatusRec :=
  pollAux stream 0 fuel

/-- The bounded `output_file_id` refresh loop of `run_batch` (lines 202-208):
attempt `i` first sleeps `2.0 * (i+1)` seconds, then re-retrieves the job;
a truthy `output_file_id` breaks with the refreshed status. Returns the
refreshed status (if any) and the performed sleeps. -/
def refreshLoop (refresh : ℕ → BatchStatusRec) :
    ℕ → ℕ → Option BatchStatusRec × List ℚ
  | _, 0 => (none, [])
  | i, fuel + 1 =>
      let st := refresh i
      if truthyStr st.output_file_id then (some st, [(2 * (i + 1) : ℚ)])
      else
        let r := refreshLoop refresh (i + 1) fuel
        (r.1, (2 * (i + 1) : ℚ) :: r.2)

/-- The bounded result-download loop of `run_batch` (lines 213-220):
`download i` is the i-th `client.download_file` attempt (`none` = raised);
a failed attempt sleeps `2.0 * (i+1)` seconds. Returns the downloaded
content (if any), the performed sleeps, and the number of attempts made. -/
def downloadLoop (download : ℕ → Option (List BatchLine)) :
    ℕ → ℕ → Option (List BatchLine) × List ℚ × ℕ
  | _, 0 => (none, [], 0)
  | i, fuel + 1 =>
      match download i with
      | some content => (some content, [], 1)
      | none =>
          let r := downloadLoop download (i + 1) fuel
          (r.1, (2 * (i + 1) : ℚ) :: r.2.1, r.2.2 + 1)

/-- How a batch run ends: a raised `RuntimeError` (run-level abort), the
non-completed return `{"batch":…, "status": status, "results": None}`, or
the completed return with parsed per-record outcomes. -/
inductive RunBatchOutcome where
  | fatal (msg : String)
  | statusOnly (st : BatchStatusRec)
  | completedRun (st : BatchStatusRec) (results : List Outcome)

/-- A batch run plus the observable effects the claims talk about. -/
structure RunBatchTrace where
  outcome : RunBatchOutcome
  refreshSleeps : List ℚ
  downloadSleeps : List ℚ
  downloadCalls : ℕ

/-- `batch_runner.run_batch` from the upload response on (the earlier steps
- config validation, CSV reading, request-file writing - precede the
lifecycle the claims describe).  `uploadId`/`uploadDataId` are
`file_info.get("id")` and `file_info.get("data", {}).get("id")`; `pollSt` is
the terminal status `poll_batch` returned; `refresh` and `download` are the
provider's responses to the bounded retry loops. -/
def runBatchModel (records : List Record) (idMap : List (String × Record))
    (template : ExtractionTemplate) (uploadId uploadDataId : Option String)
    (pollSt : BatchStatusRec) (refresh : ℕ → BatchStatusRec)
    (download : ℕ → Option (List BatchLine)) : RunBatchTrace :=
  let fileId := pyOrStr uploadId uploadDataId
  if !truthyStr fileId then
    ⟨RunBatchOutcome.fatal "文件上传成功但未获取到文件ID", [], [], 0⟩
  else if !(pollSt.status == some "completed") then
    ⟨RunBatchOutcome.statusOnly pollSt, [], [], 0⟩
  else
    let refreshed :=
      if truthyStr pollSt.output_file_id then (some pollSt, ([] : List ℚ))
      else refreshLoop refresh 0 6
    match refreshed with
    | (none, rSleeps) =>
        ⟨RunBatchOutcome.fatal "批量任务已完成但尚未生成结果文件，请稍后重试", rSleeps, [], 0⟩
    | (some st, rSleeps) =>
        match downloadLoop download 0 8 with
        | (none, dSleeps, calls) =>
            ⟨RunBatchOutcome.fatal "结果文件暂不可用，请稍后重试下载", rSleeps, dSleeps, calls⟩
        | (some lines, dSleeps, calls) =>
            ⟨RunBatchOutcome.completedRun st
              (parseBatchResults records idMap lines template), rSleeps, dSleeps, calls⟩

/-! ### Lemmas: Python-dict lookup -/

theorem pyDictGet_append_single {β : Type} (d : List (String × β)) (k k' : String) (v : β) :
    pyDictGet (d ++ [(k, v)]) k' = if k = k' then some v else pyDictGet d k' := by
  simp only [pyDictGet, List.reverse_append, List.reverse_cons, List.reverse_nil,
    List.nil_append, List.cons_append, List.find?]
  by_cases h : k = k'
  · simp [h]
  · simp only [h, if_false]
    have : ((k, v).1 == k') = false := by simpa using h
    simp [this]

theorem pyDictGet_cons {β : Type} (p : String × β) (d : List (String × β)) (k : String) :
    pyDictGet (p :: d) k =
      match pyDictGet d k with
      | some v => some v
      | none => if p.1 = k then some p.2 else none := by
  simp only [pyDictGet, List.reverse_cons, List.find?_append]
  cases h : List.find? (fun q => q.1 == k) d.reverse with
  | none =>
      by_cases hk : p.1 = k
      · simp [List.find?, hk]
      · have hb : (p.1 == k) = false := by simpa using hk
        simp [List.find?, hb, hk]
  | some q => simp

theorem pyDictGet_eq_none_of_not_mem {β : Type} (d : List (String × β)) (k : String)
    (h : k ∉ d.map Prod.fst) : pyDictGet d k = none := by
  have hf : List.find? (fun p => p.1 == k) d.reverse = none := by
    rw [List.find?_eq_none]
    intro p hp
    simp only [beq_iff_eq]
    intro hk
    exact h (by simpa [hk] using List.mem_map_of_mem Prod.fst (List.mem_reverse.mp hp))
  simp [pyDictGet, hf]

theorem pyDictGet_mem {β : Type} {d : List (String × β)} {k : String} {v : β}
    (h : pyDictGet d k = some v) : (k, v) ∈ d := by
  unfold pyDictGet at h
  cases hf : List.find? (fun p => p.1 == k) d.reverse with
  | none => simp [hf] at h
  | some p =>
      have hmem := List.mem_reverse.mp (List.mem_of_find?_eq_some hf)
      have hpred := List.find?_some hf
      simp only [beq_iff_eq] at hpred
      obtain ⟨p1, p2⟩ := p
      rw [hf] at h
      simp only at hpred
      simp at h
      subst hpred; subst h
      exact hmem

theorem pyDictGet_of_nodup_mem {β : Type} {d : List (String × β)} {k : String} {v : β}
    (hnd : (d.map Prod.fst).Nodup) (h : (k, v) ∈ d) : pyDictGet d k = some v := by
  induction d with
  | nil => simp at h
  | cons p rest ih =>
      simp only [List.map_cons, List.nodup_cons] at hnd
      rw [pyDictGet_cons]
      rcases List.mem_cons.mp h with h | h
      · subst h
        rw [pyDictGet_eq_none_of_not_mem rest k hnd.1]
        simp
      · rw [ih hnd.2 h]

/-! ### Lemmas: normalisation (claim C7) -/

theorem normData_get (raw : List (String × JVal)) :
    ∀ (fields : List FieldConfig) (d0 : List (String × JVal)) (name : String),
      pyDictGet (fields.foldl (fun d f => d ++ [(f.name, fieldValue raw f.name)]) d0) name =
        if name ∈ fields.map FieldConfig.name then some (fieldValue raw name)
        else pyDictGet d0 name := by
  intro fields
  induction fields with
  | nil => intro d0 name; simp
  | cons g gs ih =>
      intro d0 name
      simp only [List.foldl_cons, List.map_cons, List.mem_cons]
      rw [ih]
      by_cases hgs : name ∈ gs.map FieldConfig.name
      · simp [hgs]
      · by_cases hg : g.name = name
        · subst hg
          simp [hgs, pyDictGet_append_single]
        · have hne : ¬(name = g.name ∨ name ∈ List.map FieldConfig.name gs) := by
            rintro (h | h)
            · exact hg h.symm
            · exact hgs h
          rw [if_neg hgs, if_neg hne, pyDictGet_append_single, if_neg hg]

/-- C7: for every template and every raw JSON payload, the normalised result
contains every field declared by the template: a field absent from the
payload (or whose key holds JSON null) is the empty string, a string field
that strips to empty is the empty string, and no declared field is omitted. -/
theorem c7_normalisation_completeness (template : ExtractionTemplate)
    (raw : List (String × JVal)) (f : FieldConfig) (hf : f ∈ template.fields) :
    (∃ v, pyDictGet (normaliseExtraction raw template)._data f.name = some v) ∧
    (pyGet raw f.name = none →
      pyDictGet (normaliseExtraction raw template)._data f.name = some (JVal.str "")) ∧
    (∀ s, pyGet raw f.name = some (JVal.str s) → s.trim = "" →
      pyDictGet (normaliseExtraction raw template)._data f.name = some (JVal.str "")) := by
  have hget : pyDictGet (normaliseExtraction raw template)._data f.name =
      some (fieldValue raw f.name) := by
    show pyDictGet (template.fields.foldl
      (fun d g => d ++ [(g.name, fieldValue raw g.name)]) []) f.name = _
    rw [normData_get raw template.fields [] f.name]
    simp [List.mem_map_of_mem FieldConfig.name hf]
  refine ⟨⟨fieldValue raw f.name, hget⟩, ?_, ?_⟩
  · intro habs
    rw [hget]
    simp [fieldValue, habs]
  · intro s hs htrim
    rw [hget]
    simp [fieldValue, hs, cleanStr, htrim]

/-- Witness for C7 at a concrete template and payload: fields f1,f2,f3 with
only f1 present. -/
theorem c7_normalisation_completeness_witness :
    pyDictGet (normaliseExtraction [("f1", JVal.str "x")]
      ⟨"t", "", "", [⟨"f1", "", "", "string", none, false, ""⟩,
        ⟨"f2", "", "", "string", none, false, ""⟩,
        ⟨"f3", "", "", "string", none, false, ""⟩]⟩)._data "f2" = some (JVal.str "") := by
  have h := c7_normalisation_completeness
    ⟨"t", "", "", [⟨"f1", "", "", "string", none, false, ""⟩,
      ⟨"f2", "", "", "string", none, false, ""⟩,
      ⟨"f3", "", "", "string", none, false, ""⟩]⟩
    [("f1", JVal.str "x")]
    ⟨"f2", "", "", "string", none, false, ""⟩
    (by simp)
  exact h.2.1 (by rfl)

/-! ### Lemmas: rate limiter (claim C4) -/

theorem rlGrants_mem_ge_slot (itv : ℚ) (hitv : 0 ≤ itv) :
    ∀ (nows : List ℚ) (slot g : ℚ), g ∈ rlGrants itv slot nows → slot ≤ g := by
  intro nows
  induction nows with
  | nil => intro slot g h; simp [rlGrants] at h
  | cons now rest ih =>
      intro slot g h
      simp only [rlGrants, List.mem_cons] at h
      rcases h with h | h
      · subst h; exact le_max_right _ _
      · calc slot ≤ max now slot + itv := by
              have := le_max_right now slot
              linarith
          _ ≤ g := ih (max now slot + itv) g h

theorem rlGrants_chain (itv : ℚ) (hitv : 0 ≤ itv) :
    ∀ (nows : List ℚ) (slot : ℚ),
      List.Chain' (fun a b => a + itv ≤ b) (rlGrants itv slot nows) := by
  intro nows
  induction nows with
  | nil => intro slot; simp [rlGrants]
  | cons now rest ih =>
      intro slot
      rw [rlGrants, List.chain'_cons']
      refine ⟨?_, ih (max now slot + itv)⟩
      intro b hb
      have hmem : b ∈ rlGrants itv (max now slot + itv) rest :=
        List.mem_of_mem_head? hb
      exact rlGrants_mem_ge_slot itv hitv rest _ b hmem

/-- C4: with a single shared limiter, any two consecutive granted
acquisitions are at least `60/rpm` seconds apart: each grant moves the
next-eligible marker to `max(now, marker) + 60/rpm`, and the marker
updates are serialized (the lock is held across the read-sleep-write),
so the (i+1)-th grant is at least the i-th grant plus the interval. -/
theorem c4_rate_limiter_spacing (rpm : ℕ) (hrpm : 1 ≤ rpm) (slot : ℚ)
    (nows : List ℚ) (i : ℕ)
    (h : i + 1 < (rlGrants (rlInterval rpm) slot nows).length) :
    (rlGrants (rlInterval rpm) slot nows).get ⟨i, by omega⟩ + 60 / (rpm : ℚ) ≤
      (rlGrants (rlInterval rpm) slot nows).get ⟨i + 1, h⟩ := by
  have hitv : rlInterval rpm = 60 / (rpm : ℚ) := by
    rw [rlInterval, Nat.max_eq_left hrpm]
  have hpos : (0 : ℚ) ≤ rlInterval rpm := by
    rw [hitv]
    positivity
  have hc := (List.chain'_iff_get.mp
    (rlGrants_chain (rlInterval rpm) hpos nows slot)) i (by omega)
  rw [← hitv]
  exact hc

/-- Witness for C4: rpm = 60 (one-second interval), marker starting at 0,
two acquisitions whose clock reads are both 0: grants are [0, 1], one
interval apart. -/
theorem c4_rate_limiter_spacing_witness :
    (rlGrants (rlInterval 60) 0 [0, 0]).get ⟨0, by simp [rlGrants]⟩ + 60 / (60 : ℚ) ≤
      (rlGrants (rlInterval 60) 0 [0, 0]).get ⟨1, by simp [rlGrants]⟩ :=
  c4_rate_limiter_spacing 60 (by norm_num) 0 [0, 0] 0 (by simp [rlGrants])

/-! ### Lemmas: retry policy (claim C2) -/

theorem callWithRetryGo_attempts_le {α : Type} (op : ℕ → Except String α) (b : ℚ) :
    ∀ (k a : ℕ), (callWithRetryGo op b a k).attempts ≤ k + 1 := by
  intro k
  induction k with
  | zero =>
      intro a
      rw [callWithRetryGo]
      cases op a <;> simp
  | succ r ih =>
      intro a
      rw [callWithRetryGo]
      cases op a with
      | ok x => simp
      | error e =>
          simp only
          have := ih (a + 1)
          omega

theorem callWithRetryGo_success {α : Type} (op : ℕ → Except String α) (b : ℚ)
    (e : ℕ → String) (v : α) :
    ∀ (j a k : ℕ), j ≤ k →
      (∀ i, i < j → op (a + i) = Except.error (e (a + i))) →
      op (a + j) = Except.ok v →
      callWithRetryGo op b a k =
        ⟨Except.ok v,
          (List.range j).map (fun i => computeDelay b (e (a + i)) (a + i)), j + 1⟩ := by
  intro j
  induction j with
  | zero =>
      intro a k _ _ hsucc
      rw [callWithRetryGo]
      simp only [Nat.add_zero] at hsucc
      rw [hsucc]
      simp
  | succ m ih =>
      intro a k hjk hfail hsucc
      obtain ⟨r, rfl⟩ : ∃ r, k = r + 1 := ⟨k - 1, by omega⟩
      rw [callWithRetryGo]
      have h0 : op a = Except.error (e a) := by
        have := hfail 0 (Nat.succ_pos m)
        simpa using this
      rw [h0]
      simp only
      have hfail' : ∀ i, i < m → op (a + 1 + i) = Except.error (e (a + 1 + i)) := by
        intro i hi
        have := hfail (i + 1) (by omega)
        have harith : a + (i + 1) = a + 1 + i := by omega
        rwa [harith] at this
      have hsucc' : op (a + 1 + m) = Except.ok v := by
        have harith : a + (m + 1) = a + 1 + m := by omega
        rwa [harith] at hsucc
      rw [ih (a + 1) r (by omega) hfail' hsucc']
      have hlist : computeDelay b (e a) a ::
          (List.range m).map (fun i => computeDelay b (e (a + 1 + i)) (a + 1 + i)) =
          (List.range (m + 1)).map (fun i => computeDelay b (e (a + i)) (a + i)) := by
        rw [List.range_succ_eq_map, List.map_cons, List.map_map]
        simp only [Nat.add_zero]
        refine congrArg _ ?_
        refine List.map_congr_left ?_
        intro i _
        have harith : a + 1 + i = a + (i + 1) := by omega
        simp [Function.comp, harith]
      simp only [RetryTrace.mk.injEq]
      exact ⟨trivial, hlist, trivial⟩

theorem callWithRetryGo_allfail {α : Type} (op : ℕ → Except String α) (b : ℚ)
    (e : ℕ → String) :
    ∀ (k a : ℕ), (∀ i, i ≤ k → op (a + i) = Except.error (e (a + i))) →
      (callWithRetryGo op b a k).result = Except.error (e (a + k)) := by
  intro k
  induction k with
  | zero =>
      intro a hfail
      rw [callWithRetryGo]
      have := hfail 0 (le_refl 0)
      simp only [Nat.add_zero] at this ⊢
      rw [this]
  | succ r ih =>
      intro a hfail
      rw [callWithRetryGo]
      have h0 : op a = Except.error (e a) := by simpa using hfail 0 (by omega)
      rw [h0]
      simp only
      have := ih (a + 1) (fun i hi => by
        have := hfail (i + 1) (by omega)
        have harith : a + (i + 1) = a + 1 + i := by omega
        rwa [harith] at this)
      have harith : a + 1 + r = a + (r + 1) := by omega
      rwa [harith] at this

/-- C2: the retry wrapper makes at most `max_retries + 1` attempts; an
operation failing exactly `k ≤ max_retries` times with generic (non-quota)
errors and then succeeding returns the success value after `k + 1` attempts
with total backoff sleep `sum(backoff^i for i in 0..k-1)`; an operation
failing on every permitted attempt propagates the final error unmodified. -/
theorem c2_retry_policy {α : Type} (maxRetries k : ℕ) (backoff : ℚ)
    (op opf : ℕ → Except String α) (v : α) (e efail : ℕ → String)
    (hk : k ≤ maxRetries)
    (hfail : ∀ i, i < k → op i = Except.error (e i))
    (hgen : ∀ i, i < k → is429 (e i) = false)
    (hsucc : op k = Except.ok v)
    (hallfail : ∀ i, i ≤ maxRetries → opf i = Except.error (efail i)) :
    (callWithRetry op maxRetries backoff).result = Except.ok v ∧
    (callWithRetry op maxRetries backoff).sleeps.sum =
      ((List.range k).map (fun i => backoff ^ i)).sum ∧
    (callWithRetry op maxRetries backoff).attempts = k + 1 ∧
    (∀ op2 : ℕ → Except String α,
      (callWithRetry op2 maxRetries backoff).attempts ≤ maxRetries + 1) ∧
    (callWithRetry opf maxRetries backoff).result = Except.error (efail maxRetries) := by
  have hrun := callWithRetryGo_success op backoff e v k 0 maxRetries hk
    (fun i hi => by simpa using hfail i hi)
    (by simpa using hsucc)
  have hsleeps :
      (List.range k).map (fun i => computeDelay backoff (e (0 + i)) (0 + i)) =
        (List.range k).map (fun i => backoff ^ i) := by
    refine List.map_congr_left ?_
    intro i hi
    have hi' : i < k := List.mem_range.mp hi
    simp only [Nat.zero_add]
    rw [computeDelay, if_neg]
    simp [hgen i hi']
  constructor
  · rw [callWithRetry, hrun]
  refine ⟨?_, ?_, ?_, ?_⟩
  · rw [callWithRetry, hrun]
    simp only
    rw [hsleeps]
  · rw [callWithRetry, hrun]
  · intro op2
    exact callWithRetryGo_attempts_le op2 backoff maxRetries 0
  · have := callWithRetryGo_allfail opf backoff efail maxRetries 0
      (fun i hi => by simpa using hallfail i hi)
    simpa [callWithRetry] using this

/-- Witness for C2: max_retries = 3, backoff = 2, an operation failing twice
with a generic error then succeeding with 7; total sleep 2^0 + 2^1 = 3; and
an operation that always fails, whose last error is returned. -/
theorem c2_retry_policy_witness :
    (callWithRetry (fun i => if i < 2 then Except.error "boom" else Except.ok (7 : ℕ)) 3 2).result =
        Except.ok 7 ∧
    (callWithRetry (fun i => if i < 2 then Except.error "boom" else Except.ok (7 : ℕ)) 3 2).sleeps.sum = 3 ∧
    (callWithRetry (fun _ => (Except.error "final" : Except String ℕ)) 3 2).result =
        Except.error "final" := by
  have h := c2_retry_policy 3 2 2
    (fun i => if i < 2 then Except.error "boom" else Except.ok (7 : ℕ))
    (fun _ => (Except.error "final" : Except String ℕ))
    7 (fun _ => "boom") (fun _ => "final")
    (by norm_num)
    (fun i hi => by simp [hi])
    (fun i _ => by show is429 "boom" = false; decide)
    (by norm_num)
    (fun i _ => rfl)
  refine ⟨h.1, ?_, h.2.2.2.2⟩
  rw [h.2.1]
  norm_num [List.range_succ]

/-! ### Claim C3: quota-failure backoff delays -/

/-- C3 counterexample: the quota classification is *not* case-insensitive
over the resource-exhaustion marker.  The message "resource_exhausted"
(lowercase) is not classified as a quota failure - its delay is the generic
`backoff ^ attempt = 2`, not the quota `backoff ^ attempt * 10 = 20` the
claim requires for a quota-classified failure without an embedded
suggestion - while the uppercase spelling is. -/
theorem c3_counterexample :
    is429 "resource_exhausted" = false ∧
    is429 "RESOURCE_EXHAUSTED" = true ∧
    computeDelay 2 "resource_exhausted" 1 = 2 ∧
    computeDelay 2 "resource_exhausted" 1 ≠ 2 ^ (1 : ℕ) * 10 := by
  have h1 : is429 "resource_exhausted" = false := by decide
  have h3 : computeDelay 2 "resource_exhausted" 1 = 2 := by
    rw [computeDelay, if_neg (by simp [h1])]
    norm_num
  refine ⟨h1, by decide, h3, ?_⟩
  rw [h3]
  norm_num

/-- C3 (amended): classification checks the substrings "429" and
"RESOURCE_EXHAUSTED" case-sensitively and "quota" case-insensitively.  For a
non-final quota-classified failure the delay is `min(suggested + 2, 120)`
when a nonzero suggested delay is extracted and `backoff ^ attempt * 10`
otherwise (no pattern match, or an extracted delay of exactly 0, which is
falsy in Python); a non-quota failure sleeps `backoff ^ attempt`.  In
particular a quota error containing "retry in 5.0s" yields exactly 7. -/
theorem c3_quota_delay (backoff : ℚ) (attempt : ℕ) (sq sn sg : String) (d : ℚ)
    (hq : is429 sq = true) (hqe : extract429RetryDelay sq = some d) (hd : d ≠ 0)
    (hn : is429 sn = true) (hne : extract429RetryDelay sn = none)
    (hg : is429 sg = false) :
    computeDelay backoff sq attempt = min (d + 2) 120 ∧
    computeDelay backoff sn attempt = backoff ^ attempt * 10 ∧
    computeDelay backoff sg attempt = backoff ^ attempt ∧
    is429 "error 429: quota exceeded, retry in 5.0s" = true ∧
    extract429RetryDelay "error 429: quota exceeded, retry in 5.0s" = some 5 ∧
    computeDelay backoff "error 429: quota exceeded, retry in 5.0s" attempt = 7 := by
  have hex : extract429RetryDelay "error 429: quota exceeded, retry in 5.0s" = some 5 := by
    have hp : extract429Parts "error 429: quota exceeded, retry in 5.0s" = some (5, 0, 1) := by
      decide
    rw [extract429RetryDelay, hp]
    norm_num [Option.map, qOfParts]
  refine ⟨?_, ?_, ?_, by decide, hex, ?_⟩
  · rw [computeDelay, if_pos hq, hqe]
    show (if d ≠ 0 then min (d + 2) 120 else backoff ^ attempt * 10) = min (d + 2) 120
    rw [if_pos hd]
  · rw [computeDelay, if_pos hn, hne]
  · rw [computeDelay, if_neg (by simp [hg])]
  · rw [computeDelay, if_pos (by decide), hex]
    show (if (5 : ℚ) ≠ 0 then min ((5 : ℚ) + 2) 120 else backoff ^ attempt * 10) = 7
    rw [if_pos (by norm_num)]
    rw [min_eq_left (by norm_num)]
    norm_num

/-- Witness for C3 at concrete messages: a quota error with a suggested
delay of 30s (delay 32), a quota error with no suggestion (delay 20 at
backoff 2, attempt 1), and a generic error (delay 2). -/
theorem c3_quota_delay_witness :
    computeDelay 2 "429: retry in 30s" 1 = 32 ∧
    computeDelay 2 "429 busy" 1 = 20 ∧
    computeDelay 2 "timeout" 1 = 2 := by
  have hqe : extract429RetryDelay "429: retry in 30s" = some 30 := by
    have hp : extract429Parts "429: retry in 30s" = some (30, 0, 0) := by decide
    rw [extract429RetryDelay, hp]
    norm_num [Option.map, qOfParts]
  have hne : extract429RetryDelay "429 busy" = none := by
    have hp : extract429Parts "429 busy" = none := by decide
    rw [extract429RetryDelay, hp]
    rfl
  have h := c3_quota_delay 2 1 "429: retry in 30s" "429 busy" "timeout" 30
    (by decide) hqe (by norm_num) (by decide) hne (by decide)
  refine ⟨?_, ?_, h.2.2.1⟩
  · rw [h.1, min_eq_left (by norm_num)]
    norm_num
  · rw [h.2.1]
    norm_num

/-! ### Lemmas: batch result dictionary (claims C1, C5, C9, C10) -/

theorem buildResultsDict_acc (idMap : List (String × Record))
    (template : ExtractionTemplate) :
    ∀ (lines : List BatchLine) (d : List (String × Outcome)),
      buildResultsDict idMap template d lines =
        d ++ buildResultsDict idMap template [] lines := by
  intro lines
  induction lines with
  | nil => intro d; simp [buildResultsDict]
  | cons l rest ih =>
      intro d
      rw [buildResultsDict, buildResultsDict]
      cases hl : lineRecord idMap l with
      | none => simp only; exact ih d
      | some r =>
          simp only
          rw [ih (d ++ [(r.id_value, processLine r l.payload template)]),
            ih ([] ++ [(r.id_value, processLine r l.payload template)])]
          simp [List.append_assoc]

theorem buildResultsDict_append_lines (idMap : List (String × Record))
    (template : ExtractionTemplate) :
    ∀ (ls₁ ls₂ : List BatchLine) (d : List (String × Outcome)),
      buildResultsDict idMap template d (ls₁ ++ ls₂) =
        buildResultsDict idMap template (buildResultsDict idMap template d ls₁) ls₂ := by
  intro ls₁
  induction ls₁ with
  | nil => intro ls₂ d; simp [buildResultsDict]
  | cons l rest ih =>
      intro ls₂ d
      rw [List.cons_append, buildResultsDict, buildResultsDict]
      cases hl : lineRecord idMap l with
      | none => simp only; exact ih ls₂ d
      | some r => simp only; exact ih ls₂ _

theorem buildResultsDict_untouched (idMap : List (String × Record))
    (template : ExtractionTemplate) (v : String) :
    ∀ (lines : List BatchLine) (d : List (String × Outcome)),
      (∀ l ∈ lines, ∀ r, lineRecord idMap l = some r → r.id_value ≠ v) →
      pyDictGet (buildResultsDict idMap template d lines) v = pyDictGet d v := by
  intro lines
  induction lines with
  | nil => intro d _; rfl
  | cons l rest ih =>
      intro d hno
      rw [buildResultsDict]
      cases hl : lineRecord idMap l with
      | none =>
          simp only
          exact ih d (fun l' hl' => hno l' (List.mem_cons_of_mem l hl'))
      | some r =>
          simp only
          rw [ih _ (fun l' hl' => hno l' (List.mem_cons_of_mem l hl'))]
          rw [pyDictGet_append_single]
          rw [if_neg (hno l (List.mem_cons_self l rest) r hl)]

theorem buildResultsDict_pred (idMap : List (String × Record))
    (template : ExtractionTemplate) (P : String × Outcome → Prop)
    (hP : ∀ (r : Record) (p : LinePayload), P (r.id_value, processLine r p template)) :
    ∀ (lines : List BatchLine) (d : List (String × Outcome)),
      (∀ kv ∈ d, P kv) → ∀ kv ∈ buildResultsDict idMap template d lines, P kv := by
  intro lines
  induction lines with
  | nil => intro d hd kv hkv; exact hd kv hkv
  | cons l rest ih =>
      intro d hd kv hkv
      rw [buildResultsDict] at hkv
      cases hl : lineRecord idMap l with
      | none =>
          rw [hl] at hkv
          exact ih d hd kv hkv
      | some r =>
          rw [hl] at hkv
          refine ih _ ?_ kv hkv
          intro kv' hkv'
          rcases List.mem_append.mp hkv' with h | h
          · exact hd kv' h
          · rcases List.mem_singleton.mp h with rfl
            exact hP r l.payload

/-- C5: `parse_batch_results` produces exactly one outcome per original
input record (not per returned line); a record whose natural id is absent
from the results dictionary gets the `Missing` sentinel outcome
`"批量任务无返回"`; a line whose submission key is not in the identity map is
silently dropped; and with 3 submitted records but only 2 returned lines the
third record's outcome is the sentinel, not dropped. -/
theorem c5_missing_row_handling (records : List Record)
    (idMap : List (String × Record)) (lines : List BatchLine)
    (template : ExtractionTemplate) :
    (parseBatchResults records idMap lines template).length = records.length ∧
    (∀ (i : ℕ) (h1 : i < (parseBatchResults records idMap lines template).length)
       (h2 : i < records.length),
       pyDictGet (buildResultsDict idMap template [] lines)
           (records.get ⟨i, h2⟩).id_value = none →
       (parseBatchResults records idMap lines template).get ⟨i, h1⟩ =
         missingOutcome (records.get ⟨i, h2⟩)) ∧
    (∀ (l : BatchLine) (ls₁ ls₂ : List BatchLine), lineRecord idMap l = none →
       parseBatchResults records idMap (ls₁ ++ l :: ls₂) template =
         parseBatchResults records idMap (ls₁ ++ ls₂) template) ∧
    (parseBatchResults [⟨"1", "x", []⟩, ⟨"2", "y", []⟩, ⟨"3", "z", []⟩]
        (writeRequestJsonl [⟨"1", "x", []⟩, ⟨"2", "y", []⟩, ⟨"3", "z", []⟩])
        [⟨some "1", LinePayload.errorField (some "e1")⟩,
         ⟨some "2", LinePayload.errorField (some "e2")⟩] template).map
        (fun o => (o.1, o.2.2)) =
      [(⟨"1", "x", []⟩, some "e1"), (⟨"2", "y", []⟩, some "e2"),
       (⟨"3", "z", []⟩, some "批量任务无返回")] := by
  refine ⟨by simp [parseBatchResults], ?_, ?_, by rfl⟩
  · intro i h1 h2 hnone
    simp only [List.get_eq_getElem] at hnone
    simp only [parseBatchResults, List.get_eq_getElem, List.getElem_map]
    rw [hnone]
    rfl
  · intro l ls₁ ls₂ hl
    unfold parseBatchResults
    rw [buildResultsDict_append_lines, buildResultsDict_append_lines]
    rw [buildResultsDict]
    rw [hl]

/-- Witness for C5 at a concrete instance: three records, two returned
lines, the third record receives the Missing sentinel (index 2 case of the
second conjunct at empty lines is exercised via the first and second
conjuncts at a one-record run with no lines). -/
theorem c5_missing_row_handling_witness :
    (parseBatchResults [⟨"A", "x", []⟩] [] [] ⟨"t", "", "", []⟩).get
        ⟨0, by simp [parseBatchResults]⟩ = missingOutcome ⟨"A", "x", []⟩ :=
  (c5_missing_row_handling [⟨"A", "x", []⟩] [] [] ⟨"t", "", "", []⟩).2.1 0
    (by simp [parseBatchResults]) (by norm_num) (by rfl)

/-- C10: returned lines are indexed by the originating record's *natural*
id, so when several result lines map to records sharing one natural id, the
line occurring last in the artifact determines the outcome, and every input
record with that natural id receives that same single outcome. -/
theorem c10_last_wins (records : List Record) (idMap : List (String × Record))
    (template : ExtractionTemplate) (ls₁ ls₂ : List BatchLine) (l : BatchLine)
    (r : Record) (hl : lineRecord idMap l = some r)
    (hlast : ∀ l' ∈ ls₂, ∀ r', lineRecord idMap l' = some r' →
      r'.id_value ≠ r.id_value) :
    ∀ (i : ℕ)
      (h1 : i < (parseBatchResults records idMap (ls₁ ++ l :: ls₂) template).length)
      (h2 : i < records.length),
      (records.get ⟨i, h2⟩).id_value = r.id_value →
      (parseBatchResults records idMap (ls₁ ++ l :: ls₂) template).get ⟨i, h1⟩ =
        processLine r l.payload template := by
  intro i h1 h2 hid
  have hdict : pyDictGet
      (buildResultsDict idMap template [] (ls₁ ++ l :: ls₂)) r.id_value =
      some (processLine r l.payload template) := by
    rw [buildResultsDict_append_lines, buildResultsDict, hl]
    simp only
    rw [buildResultsDict_untouched idMap template r.id_value ls₂ _ hlast]
    rw [pyDictGet_append_single, if_pos rfl]
  simp only [List.get_eq_getElem] at hid
  simp only [parseBatchResults, List.get_eq_getElem, List.getElem_map]
  rw [hid, hdict]
  rfl

/-- Witness for C10: two records share natural id "A" (keys "A" and
"A__2"); two result lines are returned, the later one for key "A__2"; both
records' outcomes are the later line's outcome. -/
theorem c10_last_wins_witness :
    (parseBatchResults [⟨"A", "x", []⟩, ⟨"A", "y", []⟩]
        (writeRequestJsonl [⟨"A", "x", []⟩, ⟨"A", "y", []⟩])
        [⟨some "A", LinePayload.errorField (some "first")⟩,
         ⟨some "A__2", LinePayload.errorField (some "second")⟩]
        ⟨"t", "", "", []⟩).get ⟨0, by simp [parseBatchResults]⟩ =
      processLine ⟨"A", "y", []⟩ (LinePayload.errorField (some "second"))
        ⟨"t", "", "", []⟩ :=
  c10_last_wins [⟨"A", "x", []⟩, ⟨"A", "y", []⟩]
    (writeRequestJsonl [⟨"A", "x", []⟩, ⟨"A", "y", []⟩])
    ⟨"t", "", "", []⟩
    [⟨some "A", LinePayload.errorField (some "first")⟩] []
    ⟨some "A__2", LinePayload.errorField (some "second")⟩
    ⟨"A", "y", []⟩ (by rfl) (by intro l' hl'; simp at hl')
    0 (by simp [parseBatchResults]) (by norm_num) (by rfl)

/-- C9: every success outcome carries the originating record's id: both the
sync worker and the batch parser overwrite the normalised extraction's id
with the record's id, so an id the model returned in its JSON can never
replace the source record's id in an outcome. -/
theorem c9_id_overwrite :
    (∀ (record : Record) (callRes : Except String (List (String × JVal)))
       (template : ExtractionTemplate) (r : Record) (ext : ExtractionResult)
       (err : Option String),
       workerModel record callRes template = (r, some ext, err) →
       r = record ∧ ext.id_value = record.id_value) ∧
    (∀ (records : List Record) (idMap : List (String × Record))
       (lines : List BatchLine) (template : ExtractionTemplate) (out : Outcome),
       out ∈ parseBatchResults records idMap lines template →
       ∀ ext, out.2.1 = some ext → ext.id_value = out.1.id_value) := by
  constructor
  · intro record callRes template r ext err h
    cases callRes with
    | error e => exact absurd (congrArg (fun t => t.2.1) h) (by simp [workerModel])
    | ok data =>
        have h1 : record = r := congrArg (fun t => t.1) h
        have h2 : some ({ normaliseExtraction
            (pySetdefault data "id_value" (JVal.str record.id_value)) template with
              id_value := record.id_value } : ExtractionResult) = some ext :=
          congrArg (fun t => t.2.1) h
        have h3 := Option.some.inj h2
        exact ⟨h1.symm, by rw [← h3]⟩
  · intro records idMap lines template out hout ext hext
    simp only [parseBatchResults, List.mem_map] at hout
    obtain ⟨rec, _, hrec⟩ := hout
    cases hdict : pyDictGet (buildResultsDict idMap template [] lines) rec.id_value with
    | none =>
        rw [hdict] at hrec
        simp only [Option.getD_none] at hrec
        rw [← hrec] at hext
        simp [missingOutcome] at hext
    | some v =>
        rw [hdict] at hrec
        simp only [Option.getD_some] at hrec
        subst hrec
        have hmem := pyDictGet_mem hdict
        have := buildResultsDict_pred idMap template
          (fun kv => ∀ e, kv.2.2.1 = some e → e.id_value = kv.2.1.id_value)
          (fun r p => by
            cases p with
            | success content =>
                cases content with
                | ok data => intro e he; cases he; rfl
                | error exc => intro e he; simp [processLine] at he
            | errorField m =>
                cases m with
                | some msg => intro e he; simp [processLine] at he
                | none => intro e he; simp [processLine] at he)
          lines [] (by intro kv h; simp at h) _ hmem
        exact this ext hext

/-- Witness for C9: a record with id "X" whose model response claims id
"other"; the worker's success outcome still carries id "X". -/
theorem c9_id_overwrite_witness :
    (⟨"X", []⟩ : ExtractionResult).id_value = (⟨"X", "t", []⟩ : Record).id_value :=
  (c9_id_overwrite.1 ⟨"X", "t", []⟩
    (Except.ok [("id_value", JVal.str "other")]) ⟨"tmpl", "", "", []⟩
    ⟨"X", "t", []⟩ ⟨"X", []⟩ none rfl).2

/-- C1 counterexample: the sync path does *not* preserve input order.
`process_records` creates one task per record in input order but appends
results in the order `asyncio.as_completed` yields them; for the completion
order (task 1 first, then task 0) - a permutation of the task set - the
first element of the returned list is the outcome of the *second* input
record. -/
theorem c1_counterexample :
    ([(1 : Fin 2), (0 : Fin 2)]).Perm (List.finRange 2) ∧
    processRecordsModel [⟨"A", "x", []⟩, ⟨"B", "y", []⟩]
        (fun _ => Except.error "boom") ⟨"tmpl", "", "", []⟩
        [(1 : Fin 2), (0 : Fin 2)] =
      [(⟨"B", "y", []⟩, none, some "boom"), (⟨"A", "x", []⟩, none, some "boom")] ∧
    (⟨"B", "y", []⟩ : Record) ≠ ⟨"A", "x", []⟩ :=
  ⟨by decide, rfl, by decide⟩

/-- C1 (amended): both paths return exactly one outcome per input record.
The batch path preserves input order: the i-th outcome is keyed to the i-th
record's natural id.  The sync path returns the per-record outcomes as a
permutation ordered by task completion, so its i-th element corresponds to
the i-th input record only when the completion order is the identity. -/
theorem c1_order_preservation (records : List Record)
    (callRes : ℕ → Except String (List (String × JVal)))
    (template : ExtractionTemplate) (order : List (Fin records.length))
    (horder : order.Perm (List.finRange records.length))
    (idMap : List (String × Record)) (lines : List BatchLine) :
    (processRecordsModel records callRes template order).length = records.length ∧
    (processRecordsModel records callRes template order).Perm
      ((List.finRange records.length).map
        (fun i => workerModel (records.get i) (callRes i.val) template)) ∧
    (parseBatchResults records idMap lines template).length = records.length ∧
    ∀ (i : ℕ) (h1 : i < (parseBatchResults records idMap lines template).length)
      (h2 : i < records.length),
      ((parseBatchResults records idMap lines template).get ⟨i, h1⟩).1.id_value =
        (records.get ⟨i, h2⟩).id_value := by
  refine ⟨?_, ?_, by simp [parseBatchResults], ?_⟩
  · simp only [processRecordsModel, List.length_map]
    rw [horder.length_eq, List.length_finRange]
  · exact horder.map _
  · intro i h1 h2
    simp only [List.get_eq_getElem]
    simp only [parseBatchResults, List.getElem_map]
    cases hdict : pyDictGet (buildResultsDict idMap template [] lines)
        records[i].id_value with
    | none => rfl
    | some v =>
        simp only [Option.getD_some]
        have hmem := pyDictGet_mem hdict
        have := buildResultsDict_pred idMap template
          (fun kv => kv.2.1.id_value = kv.1)
          (fun r p => by
            cases p with
            | success content => cases content <;> rfl
            | errorField m => cases m <;> rfl)
          lines [] (by intro kv h; simp at h) _ hmem
        exact this

/-- Witness for C1 (amended) at a concrete run: one record, identity
completion order. -/
theorem c1_order_preservation_witness :
    (processRecordsModel [⟨"A", "x", []⟩] (fun _ => Except.error "e")
        ⟨"t", "", "", []⟩ [(0 : Fin 1)]).length = 1 ∧
    (parseBatchResults [⟨"A", "x", []⟩] [] [] ⟨"t", "", "", []⟩).length = 1 := by
  have h := c1_order_preservation [⟨"A", "x", []⟩] (fun _ => Except.error "e")
    ⟨"t", "", "", []⟩ [(0 : Fin 1)] (by decide) [] []
  exact ⟨h.1, h.2.2.1⟩

/-! ### Lemmas: decimal keys and the `__` separator (claim C6) -/

theorem decVal_append (xs : List Char) (c : Char) :
    decVal (xs ++ [c]) = decVal xs * 10 + (c.toNat - 48) := by
  simp [decVal, List.foldl_append]

theorem decDigitChar_toNat {d : ℕ} (hd : d < 10) :
    (decDigitChar d).toNat - 48 = d := by
  interval_cases d <;> rfl

theorem decDigitChar_isDigit {d : ℕ} (hd : d < 10) :
    (decDigitChar d).isDigit = true := by
  interval_cases d <;> rfl

theorem natToDecAux_digits :
    ∀ (fuel n : ℕ), n < fuel → ∀ c ∈ natToDecAux fuel n, c.isDigit = true := by
  intro fuel
  induction fuel with
  | zero => intro n hn; omega
  | succ f ih =>
      intro n hn c hc
      rw [natToDecAux] at hc
      by_cases h10 : n < 10
      · rw [if_pos h10] at hc
        rcases List.mem_singleton.mp hc with rfl
        exact decDigitChar_isDigit h10
      · rw [if_neg h10] at hc
        rcases List.mem_append.mp hc with h | h
        · exact ih (n / 10) (by omega) c h
        · rcases List.mem_singleton.mp h with rfl
          exact decDigitChar_isDigit (Nat.mod_lt n (by norm_num))
  
theorem decVal_natToDecAux :
    ∀ (fuel n : ℕ), n < fuel → decVal (natToDecAux fuel n) = n := by
  intro fuel
  induction fuel with
  | zero => intro n hn; omega
  | succ f ih =>
      intro n hn
      rw [natToDecAux]
      by_cases h10 : n < 10
      · rw [if_pos h10]
        show decVal ([] ++ [decDigitChar n]) = n
        rw [decVal_append]
        simp [decVal, decDigitChar_toNat h10]
      · rw [if_neg h10]
        rw [decVal_append, ih (n / 10) (by omega),
          decDigitChar_toNat (Nat.mod_lt n (by norm_num))]
        omega

theorem natToDec_inj {m n : ℕ} (h : natToDec m = natToDec n) : m = n := by
  have hd : natToDecAux (m + 1) m = natToDecAux (n + 1) n := congrArg String.data h
  have := decVal_natToDecAux (m + 1) m (by omega)
  rw [hd, decVal_natToDecAux (n + 1) n (by omega)] at this
  omega

theorem natToDec_digits (n : ℕ) : ∀ c ∈ (natToDec n).data, c.isDigit = true :=
  natToDecAux_digits (n + 1) n (by omega)

theorem isPrefOf_self_append (n l : List Char) : isPrefOf n (n ++ l) = true := by
  induction n with
  | nil => rfl
  | cons c cs ih => simp [isPrefOf, ih]

theorem containsSub_cons_false {n : List Char} {c : Char} {cs : List Char}
    (h : containsSub n (c :: cs) = false) : containsSub n cs = false := by
  rw [containsSub, Bool.or_eq_false_iff] at h
  exact h.2

theorem containsSub_surround (n : List Char) :
    ∀ (l₁ l₂ : List Char), containsSub n (l₁ ++ (n ++ l₂)) = true := by
  intro l₁
  induction l₁ with
  | nil =>
      intro l₂
      cases n with
      | nil => cases l₂ <;> simp [containsSub, isPrefOf]
      | cons c cs =>
          have h := isPrefOf_self_append (c :: cs) l₂
          rw [List.cons_append] at h
          show containsSub (c :: cs) (c :: cs ++ l₂) = true
          rw [List.cons_append, containsSub, h]
          rfl
  | cons c cs ih =>
      intro l₂
      rw [List.cons_append, containsSub, ih l₂]
      simp

theorem sepUU_inj :
    ∀ (xs ys ds ds' : List Char),
      containsSub ['_', '_'] xs = false → containsSub ['_', '_'] ys = false →
      (∀ c ∈ ds, c.isDigit = true) → (∀ c ∈ ds', c.isDigit = true) →
      xs ++ '_' :: '_' :: ds = ys ++ '_' :: '_' :: ds' →
      xs = ys ∧ ds = ds' := by
  intro xs
  induction xs with
  | nil =>
      intro ys ds ds' hxs hys hds hds' h
      cases ys with
      | nil =>
          simp only [List.nil_append, List.cons.injEq, true_and] at h
          exact ⟨rfl, h⟩
      | cons y ys₂ =>
          simp only [List.nil_append, List.cons_append, List.cons.injEq] at h
          obtain ⟨hy, h2⟩ := h
          cases ys₂ with
          | nil =>
              simp only [List.nil_append, List.cons.injEq, true_and] at h2
              exfalso
              have hmem : '_' ∈ ds := by rw [h2]; exact List.mem_cons_self _ _
              have := hds '_' hmem
              simp [Char.isDigit] at this
          | cons y₂ ys₃ =>
              simp only [List.cons_append, List.cons.injEq] at h2
              obtain ⟨hy₂, -⟩ := h2
              exfalso
              rw [← hy, ← hy₂] at hys
              have : containsSub ['_', '_'] ('_' :: '_' :: ys₃) = true := by
                rw [containsSub]
                simp [isPrefOf]
              rw [this] at hys
              cases hys
  | cons x xs₂ ih =>
      intro ys ds ds' hxs hys hds hds' h
      cases ys with
      | nil =>
          simp only [List.cons_append, List.nil_append, List.cons.injEq] at h
          obtain ⟨hx, h2⟩ := h
          cases xs₂ with
          | nil =>
              simp only [List.nil_append, List.cons.injEq, true_and] at h2
              exfalso
              have hmem : '_' ∈ ds' := by rw [← h2]; exact List.mem_cons_self _ _
              have := hds' '_' hmem
              simp [Char.isDigit] at this
          | cons x₂ xs₃ =>
              simp only [List.cons_append, List.cons.injEq] at h2
              obtain ⟨hx₂, -⟩ := h2
              exfalso
              rw [hx, hx₂] at hxs
              have : containsSub ['_', '_'] ('_' :: '_' :: xs₃) = true := by
                rw [containsSub]
                simp [isPrefOf]
              rw [this] at hxs
              cases hxs
      | cons y ys₂ =>
          simp only [List.cons_append, List.cons.injEq] at h
          obtain ⟨hxy, h2⟩ := h
          obtain ⟨hxs2, hdseq⟩ := ih ys₂ ds ds'
            (containsSub_cons_false hxs) (containsSub_cons_false hys) hds hds' h2
          exact ⟨by rw [hxy, hxs2], hdseq⟩

theorem subKey_uu_data (b : String) (k : ℕ) :
    (b ++ "__" ++ natToDec k).data = b.data ++ '_' :: '_' :: (natToDec k).data := by
  have huu : ("__" : String).data = ['_', '_'] := rfl
  rw [String.data_append, String.data_append, huu, List.append_assoc]
  rfl

theorem subKey_inj {b b' : String} {c c' : ℕ}
    (hb : containsSub ['_', '_'] b.data = false)
    (hb' : containsSub ['_', '_'] b'.data = false)
    (h : subKey b c = subKey b' c') : b = b' ∧ c = c' := by
  by_cases hc : c = 0 <;> by_cases hc' : c' = 0
  · subst hc; subst hc'
    rw [subKey, if_pos rfl, subKey, if_pos rfl] at h
    exact ⟨h, rfl⟩
  · exfalso
    subst hc
    rw [subKey, if_pos rfl, subKey, if_neg hc'] at h
    have hdata : b.data = b'.data ++ '_' :: '_' :: (natToDec (c' + 1)).data := by
      rw [h, subKey_uu_data]
    rw [hdata] at hb
    have hsur := containsSub_surround ['_', '_'] b'.data (natToDec (c' + 1)).data
    simp only [List.cons_append, List.nil_append] at hsur
    rw [hsur] at hb
    cases hb
  · exfalso
    subst hc'
    rw [subKey, if_neg hc, subKey, if_pos rfl] at h
    have hdata : b'.data = b.data ++ '_' :: '_' :: (natToDec (c + 1)).data := by
      rw [← h, subKey_uu_data]
    rw [hdata] at hb'
    have hsur := containsSub_surround ['_', '_'] b.data (natToDec (c + 1)).data
    simp only [List.cons_append, List.nil_append] at hsur
    rw [hsur] at hb'
    cases hb'
  · rw [subKey, if_neg hc, subKey, if_neg hc'] at h
    have hdata : b.data ++ '_' :: '_' :: (natToDec (c + 1)).data =
        b'.data ++ '_' :: '_' :: (natToDec (c' + 1)).data := by
      rw [← subKey_uu_data, ← subKey_uu_data, h]
    obtain ⟨h1, h2⟩ := sepUU_inj b.data b'.data _ _ hb hb'
      (natToDec_digits (c + 1)) (natToDec_digits (c' + 1)) hdata
    have hbe : b = b' := String.ext h1
    have hde : natToDec (c + 1) = natToDec (c' + 1) := String.ext h2
    have := natToDec_inj hde
    exact ⟨hbe, by omega⟩

theorem writeRequestKeysGo_length :
    ∀ (records : List Record) (seen : String → ℕ),
      (writeRequestKeysGo seen records).length = records.length := by
  intro records
  induction records with
  | nil => intro seen; rfl
  | cons r rest ih => intro seen; simp [writeRequestKeysGo, ih]

theorem writeRequestKeysGo_get :
    ∀ (records : List Record) (seen : String → ℕ) (i : ℕ)
      (h1 : i < (writeRequestKeysGo seen records).length) (h2 : i < records.length),
      (writeRequestKeysGo seen records).get ⟨i, h1⟩ =
        (subKey (baseIdOf records[i])
          (seen (baseIdOf records[i]) +
            ((records.take i).filter
              (fun r => baseIdOf r = baseIdOf records[i])).length),
         records[i]) := by
  intro records
  induction records with
  | nil => intro seen i h1 h2; simp at h2
  | cons r rest ih =>
      intro seen i h1 h2
      cases i with
      | zero => simp [writeRequestKeysGo]
      | succ j =>
          have h1' : j < (writeRequestKeysGo
              (fun x => if x = baseIdOf r then seen (baseIdOf r) + 1 else seen x)
              rest).length := by
            rw [writeRequestKeysGo_length]
            simpa using h2
          have h2' : j < rest.length := by simpa using h2
          have := ih (fun x => if x = baseIdOf r then seen (baseIdOf r) + 1 else seen x)
            j h1' h2'
          simp only [writeRequestKeysGo, List.get_eq_getElem, List.getElem_cons_succ] at this ⊢
          rw [this]
          refine congrArg₂ _ ?_ rfl
          refine congrArg _ ?_
          simp only [List.take_succ_cons, List.filter_cons]
          by_cases hb : baseIdOf r = baseIdOf rest[j]
          · rw [decide_eq_true hb]
            rw [if_pos rfl]
            simp only [List.length_cons]
            rw [if_pos hb.symm, hb]
            omega
          · rw [decide_eq_false hb]
            rw [if_neg (fun hx => hb hx.symm)]
            rw [if_neg Bool.false_ne_true]
  
theorem writeRequestKeysGo_mem_shape :
    ∀ (records : List Record) (seen : String → ℕ) (k : String) (r : Record),
      (k, r) ∈ writeRequestKeysGo seen records →
      r ∈ records ∧ ∃ c, k = subKey (baseIdOf r) c ∧ seen (baseIdOf r) ≤ c := by
  intro records
  induction records with
  | nil => intro seen k r h; simp [writeRequestKeysGo] at h
  | cons r0 rest ih =>
      intro seen k r h
      rw [writeRequestKeysGo] at h
      rcases List.mem_cons.mp h with h | h
      · have hk : k = subKey (baseIdOf r0) (seen (baseIdOf r0)) := congrArg Prod.fst h
        have hr : r = r0 := congrArg Prod.snd h
        subst hr
        exact ⟨List.mem_cons_self _ _, seen (baseIdOf r), hk, le_refl _⟩
      · obtain ⟨hmem, c, hk, hc⟩ := ih _ k r h
        refine ⟨List.mem_cons_of_mem r0 hmem, c, hk, le_trans ?_ hc⟩
        by_cases hx : baseIdOf r = baseIdOf r0
        · rw [hx]; simp
        · simp [hx]

theorem writeRequestKeysGo_keys_nodup :
    ∀ (records : List Record),
      (∀ r ∈ records, containsSub ['_', '_'] (baseIdOf r).data = false) →
      ∀ (seen : String → ℕ),
        ((writeRequestKeysGo seen records).map Prod.fst).Nodup := by
  intro records
  induction records with
  | nil => intro _ seen; simp [writeRequestKeysGo]
  | cons r0 rest ih =>
      intro hnd seen
      rw [writeRequestKeysGo]
      simp only [List.map_cons, List.nodup_cons]
      constructor
      · intro hmem
        obtain ⟨⟨k, r⟩, hp, hk⟩ := List.mem_map.mp hmem
        obtain ⟨hrmem, c, hshape, hc⟩ := writeRequestKeysGo_mem_shape rest _ k r hp
        simp only at hk
        rw [hshape] at hk
        obtain ⟨hbeq, hceq⟩ := subKey_inj
          (hnd r (List.mem_cons_of_mem r0 hrmem)) (hnd r0 (List.mem_cons_self _ _)) hk
        rw [hbeq] at hc
        simp at hc
        omega
      · exact ih (fun r hr => hnd r (List.mem_cons_of_mem r0 hr)) _

/-- C6 counterexample: submission keys are *not* always unique.  With
natural ids ["A__2", "A", "A"] the generated keys are ["A__2", "A", "A__2"]:
the second duplicate of "A" gets the suffixed key "A__2", which collides
with the first record's natural id, and the identity map can then no longer
recover the first record from its key (the later entry wins). -/
theorem c6_counterexample :
    (writeRequestJsonl [⟨"A__2", "x", []⟩, ⟨"A", "y", []⟩, ⟨"A", "z", []⟩]).map
        Prod.fst = ["A__2", "A", "A__2"] ∧
    ¬ ((writeRequestJsonl [⟨"A__2", "x", []⟩, ⟨"A", "y", []⟩, ⟨"A", "z", []⟩]).map
        Prod.fst).Nodup ∧
    pyDictGet (writeRequestJsonl [⟨"A__2", "x", []⟩, ⟨"A", "y", []⟩, ⟨"A", "z", []⟩])
        "A__2" = some ⟨"A", "z", []⟩ :=
  ⟨by decide, by decide, by decide⟩

/-- C6 (amended): provided no record's base id (the natural id, or "row"
when it is empty) contains the substring "__", the generated keys follow
the disambiguation rule (first occurrence unmodified, k-th occurrence
suffixed with `__k`), all keys are unique, and the identity map recovers
the originating record for every generated key; natural ids ["A","A","B"]
yield keys ["A","A__2","B"].  (Without the proviso the keys can collide,
see the counterexample.) -/
theorem c6_key_disambiguation (records : List Record)
    (hid : ∀ r ∈ records, containsSub ['_', '_'] (baseIdOf r).data = false) :
    (writeRequestJsonl records).length = records.length ∧
    (∀ (i : ℕ) (h1 : i < (writeRequestJsonl records).length)
       (h2 : i < records.length),
       (writeRequestJsonl records).get ⟨i, h1⟩ =
         (subKey (baseIdOf records[i])
           ((records.take i).filter
             (fun r => baseIdOf r = baseIdOf records[i])).length,
          records[i])) ∧
    ((writeRequestJsonl records).map Prod.fst).Nodup ∧
    (∀ (k : String) (r : Record), (k, r) ∈ writeRequestJsonl records →
      pyDictGet (writeRequestJsonl records) k = some r) ∧
    (writeRequestJsonl [⟨"A", "x", []⟩, ⟨"A", "y", []⟩, ⟨"B", "z", []⟩]).map
        Prod.fst = ["A", "A__2", "B"] := by
  have hnodup : ((writeRequestJsonl records).map Prod.fst).Nodup :=
    writeRequestKeysGo_keys_nodup records hid (fun _ => 0)
  refine ⟨writeRequestKeysGo_length records _, ?_, hnodup, ?_, by decide⟩
  · intro i h1 h2
    have := writeRequestKeysGo_get records (fun _ => 0) i h1 h2
    simpa using this
  · intro k r hmem
    exact pyDictGet_of_nodup_mem hnodup hmem

/-- Witness for C6 at the concrete input of the claim: ids ["A","A","B"]
(none containing "__") give keys ["A","A__2","B"] and a key list without
duplicates. -/
theorem c6_key_disambiguation_witness :
    (writeRequestJsonl [⟨"A", "x", []⟩, ⟨"A", "y", []⟩, ⟨"B", "z", []⟩]).map
        Prod.fst = ["A", "A__2", "B"] ∧
    ((writeRequestJsonl [⟨"A", "x", []⟩, ⟨"A", "y", []⟩, ⟨"B", "z", []⟩]).map
        Prod.fst).Nodup := by
  have h := c6_key_disambiguation
    [⟨"A", "x", []⟩, ⟨"A", "y", []⟩, ⟨"B", "z", []⟩] (by decide)
  exact ⟨h.2.2.2.2, h.2.2.1⟩

/-! ### Lemmas: batch lifecycle loops (claim C8) -/

theorem refreshLoop_none_iff (refresh : ℕ → BatchStatusRec) :
    ∀ (fuel i : ℕ), (refreshLoop refresh i fuel).1 = none ↔
      ∀ j, j < fuel → truthyStr (refresh (i + j)).output_file_id = false := by
  intro fuel
  induction fuel with
  | zero => intro i; simp [refreshLoop]
  | succ f ih =>
      intro i
      rw [refreshLoop]
      by_cases h : truthyStr (refresh i).output_file_id = true
      · rw [if_pos h]
        simp only
        constructor
        · intro hc; cases hc
        · intro hall
          have h0 := hall 0 (by omega)
          rw [Nat.add_zero] at h0
          rw [h0] at h
          cases h
      · rw [if_neg h]
        have h' : truthyStr (refresh i).output_file_id = false := by
          simpa using h
        simp only
        rw [ih (i + 1)]
        constructor
        · intro hall j hj
          cases j with
          | zero => simpa using h'
          | succ jj =>
              have := hall jj (by omega)
              have harith : i + 1 + jj = i + (jj + 1) := by omega
              rwa [harith] at this
        · intro hall j hj
          have := hall (j + 1) (by omega)
          have harith : i + (j + 1) = i + 1 + j := by omega
          rwa [harith] at this

theorem downloadLoop_none_iff (download : ℕ → Option (List BatchLine)) :
    ∀ (fuel i : ℕ), (downloadLoop download i fuel).1 = none ↔
      ∀ j, j < fuel → download (i + j) = none := by
  intro fuel
  induction fuel with
  | zero => intro i; simp [downloadLoop]
  | succ f ih =>
      intro i
      rw [downloadLoop]
      cases hd : download i with
      | some content =>
          simp only
          constructor
          · intro hc; cases hc
          · intro hall
            have h0 := hall 0 (by omega)
            rw [Nat.add_zero, hd] at h0
            cases h0
      | none =>
          simp only
          rw [ih (i + 1)]
          constructor
          · intro hall j hj
            cases j with
            | zero => simpa using hd
            | succ jj =>
                have := hall jj (by omega)
                have harith : i + 1 + jj = i + (jj + 1) := by omega
                rwa [harith] at this
          · intro hall j hj
            have := hall (j + 1) (by omega)
            have harith : i + (j + 1) = i + 1 + j := by omega
            rwa [harith] at this

/-- C8: the batch run aborts with a run-level error (a raised
`RuntimeError`, not a per-record outcome) exactly when the upload response
yields no (truthy) file id, or the job reports completed but the
`output_file_id` is still absent after the up-to-6 bounded refresh retries,
or the job reports completed and the result download fails on all 8 bounded
attempts; when the poll ends at `failed`/`cancelled` the run instead
returns the last known status with no per-record outcomes and performs no
download; the bounded retries sleep linearly increasing delays
(2,4,6,... seconds); and `poll_batch` only ever returns a terminal status. -/
theorem c8_batch_lifecycle (records : List Record) (idMap : List (String × Record))
    (template : ExtractionTemplate) (uploadId uploadDataId : Option String)
    (pollSt : BatchStatusRec) (refresh : ℕ → BatchStatusRec)
    (download : ℕ → Option (List BatchLine)) :
    ((∃ m, (runBatchModel records idMap template uploadId uploadDataId pollSt
        refresh download).outcome = RunBatchOutcome.fatal m) ↔
      (truthyStr (pyOrStr uploadId uploadDataId) = false ∨
       (pollSt.status = some "completed" ∧
         truthyStr pollSt.output_file_id = false ∧
         ∀ j, j < 6 → truthyStr (refresh j).output_file_id = false) ∨
       (pollSt.status = some "completed" ∧
         ¬(truthyStr pollSt.output_file_id = false ∧
           ∀ j, j < 6 → truthyStr (refresh j).output_file_id = false) ∧
         ∀ j, j < 8 → download j = none))) ∧
    ((pollSt.status = some "failed" ∨ pollSt.status = some "cancelled") →
      truthyStr (pyOrStr uploadId uploadDataId) = true →
      (runBatchModel records idMap template uploadId uploadDataId pollSt
        refresh download).outcome = RunBatchOutcome.statusOnly pollSt ∧
      (runBatchModel records idMap template uploadId uploadDataId pollSt
        refresh download).downloadCalls = 0) ∧
    (pollSt.status = some "completed" →
      truthyStr (pyOrStr uploadId uploadDataId) = true →
      truthyStr pollSt.output_file_id = false →
      (∀ j, j < 6 → truthyStr (refresh j).output_file_id = false) →
      (runBatchModel records idMap template uploadId uploadDataId pollSt
        refresh download).refreshSleeps = [2, 4, 6, 8, 10, 12] ∧
      (runBatchModel records idMap template uploadId uploadDataId pollSt
        refresh download).downloadCalls = 0) ∧
    (pollSt.status = some "completed" →
      truthyStr (pyOrStr uploadId uploadDataId) = true →
      truthyStr pollSt.output_file_id = true →
      (∀ j, j < 8 → download j = none) →
      (runBatchModel records idMap template uploadId uploadDataId pollSt
        refresh download).downloadSleeps = [2, 4, 6, 8, 10, 12, 14, 16] ∧
      (runBatchModel records idMap template uploadId uploadDataId pollSt
        refresh download).downloadCalls = 8) ∧
    (∀ (stream : ℕ → BatchStatusRec) (fuel : ℕ) (st : BatchStatusRec),
      pollBatchModel stream fuel = some st → isTerminalStatus st = true) := by
  refine ⟨?_, ?_, ?_, ?_, ?_⟩
  · -- fatal-iff classification
    by_cases hfid : truthyStr (pyOrStr uploadId uploadDataId) = true
    · have hfid' : ¬ truthyStr (pyOrStr uploadId uploadDataId) = false := by
        simp [hfid]
      by_cases hst : pollSt.status = some "completed"
      · have hbeq : (pollSt.status == some "completed") = true := by
          simp [hst]
        by_cases hofid : truthyStr pollSt.output_file_id = true
        · -- initial output_file_id truthy: no refresh loop
          rcases hDL : downloadLoop download 0 8 with ⟨dl, ds, dc⟩
          cases dl with
          | none =>
              have hall : ∀ j, j < 8 → download j = none := by
                have := (downloadLoop_none_iff download 8 0).mp (by rw [hDL])
                simpa using this
              constructor
              · intro _
                refine Or.inr (Or.inr ⟨hst, ?_, hall⟩)
                rintro ⟨hfalse, -⟩
                rw [hofid] at hfalse
                cases hfalse
              · intro _
                exact ⟨"结果文件暂不可用，请稍后重试下载",
                  by simp [runBatchModel, hfid, hbeq, hofid, hDL]⟩
          | some content =>
              have hout : (runBatchModel records idMap template uploadId uploadDataId
                  pollSt refresh download).outcome =
                  RunBatchOutcome.completedRun pollSt
                    (parseBatchResults records idMap content template) := by
                simp [runBatchModel, hfid, hbeq, hofid, hDL]
              constructor
              · rintro ⟨m, hm⟩
                rw [hout] at hm
                cases hm
              · rintro (h | ⟨-, hfalse, -⟩ | ⟨-, -, hall⟩)
                · exact absurd h hfid'
                · rw [hofid] at hfalse; cases hfalse
                · have := hall 0 (by omega)
                  have hd0 := (downloadLoop_none_iff download 8 0).mpr
                    (by simpa using hall)
                  rw [hDL] at hd0
                  cases hd0
        · have hofid' : truthyStr pollSt.output_file_id = false := by
            simpa using hofid
          rcases hRL : refreshLoop refresh 0 6 with ⟨ro, rs⟩
          cases ro with
          | none =>
              have hall6 : ∀ j, j < 6 → truthyStr (refresh j).output_file_id = false := by
                have := (refreshLoop_none_iff refresh 6 0).mp (by rw [hRL])
                simpa using this
              constructor
              · intro _
                exact Or.inr (Or.inl ⟨hst, hofid', hall6⟩)
              · intro _
                exact ⟨"批量任务已完成但尚未生成结果文件，请稍后重试",
                  by simp [runBatchModel, hfid, hbeq, hofid', hRL]⟩
          | some st =>
              rcases hDL : downloadLoop download 0 8 with ⟨dl, ds, dc⟩
              have hnot6 : ¬ (truthyStr pollSt.output_file_id = false ∧
                  ∀ j, j < 6 → truthyStr (refresh j).output_file_id = false) := by
                rintro ⟨-, hall6⟩
                have := (refreshLoop_none_iff refresh 6 0).mpr (by simpa using hall6)
                rw [hRL] at this
                cases this
              cases dl with
              | none =>
                  have hall : ∀ j, j < 8 → download j = none := by
                    have := (downloadLoop_none_iff download 8 0).mp (by rw [hDL])
                    simpa using this
                  constructor
                  · intro _
                    exact Or.inr (Or.inr ⟨hst, hnot6, hall⟩)
                  · intro _
                    exact ⟨"结果文件暂不可用，请稍后重试下载",
                      by simp [runBatchModel, hfid, hbeq, hofid', hRL, hDL]⟩
              | some content =>
                  have hout : (runBatchModel records idMap template uploadId
                      uploadDataId pollSt refresh download).outcome =
                      RunBatchOutcome.completedRun st
                        (parseBatchResults records idMap content template) := by
                    simp [runBatchModel, hfid, hbeq, hofid', hRL, hDL]
                  constructor
                  · rintro ⟨m, hm⟩
                    rw [hout] at hm
                    cases hm
                  · rintro (h | h6 | ⟨-, -, hall⟩)
                    · exact absurd h hfid'
                    · exact absurd ⟨h6.2.1, h6.2.2⟩ hnot6
                    · have hd0 := (downloadLoop_none_iff download 8 0).mpr
                        (by simpa using hall)
                      rw [hDL] at hd0
                      cases hd0
      · -- status not completed: statusOnly, never fatal
        have hbeq : (pollSt.status == some "completed") = false := by
          simpa using hst
        have hout : (runBatchModel records idMap template uploadId uploadDataId
            pollSt refresh download).outcome = RunBatchOutcome.statusOnly pollSt := by
          simp [runBatchModel, hfid, hbeq]
        constructor
        · rintro ⟨m, hm⟩
          rw [hout] at hm
          cases hm
        · rintro (h | ⟨hc, -⟩ | ⟨hc, -⟩)
          · exact absurd h hfid'
          · exact absurd hc hst
          · exact absurd hc hst
    · have hfid' : truthyStr (pyOrStr uploadId uploadDataId) = false := by
        simpa using hfid
      constructor
      · intro _
        exact Or.inl hfid'
      · intro _
        exact ⟨"文件上传成功但未获取到文件ID",
          by simp [runBatchModel, hfid']⟩
  · -- failed/cancelled: statusOnly, zero downloads
    intro hterm hfid
    have hne : pollSt.status ≠ some "completed" := by
      rcases hterm with h | h <;> rw [h] <;> simp
    have hbeq : (pollSt.status == some "completed") = false := by
      simpa using hne
    constructor <;> simp [runBatchModel, hfid, hbeq]
  · -- completed with refresh exhaustion: sleeps 2,4,...,12, no download
    intro hst hfid hofid hall
    have hbeq : (pollSt.status == some "completed") = true := by simp [hst]
    have h0 := hall 0 (by omega)
    have h1 := hall 1 (by omega)
    have h2 := hall 2 (by omega)
    have h3 := hall 3 (by omega)
    have h4 := hall 4 (by omega)
    have h5 := hall 5 (by omega)
    have hRL : refreshLoop refresh 0 6 = (none, [2, 4, 6, 8, 10, 12]) := by
      simp only [refreshLoop, h0, h1, h2, h3, h4, h5, if_neg, Bool.false_eq_true,
        if_false]
      norm_num
    constructor <;> simp [runBatchModel, hfid, hbeq, hofid, hRL]
  · -- completed with download exhaustion: sleeps 2,...,16, 8 attempts
    intro hst hfid hofid hall
    have hbeq : (pollSt.status == some "completed") = true := by simp [hst]
    have h0 := hall 0 (by omega)
    have h1 := hall 1 (by omega)
    have h2 := hall 2 (by omega)
    have h3 := hall 3 (by omega)
    have h4 := hall 4 (by omega)
    have h5 := hall 5 (by omega)
    have h6 := hall 6 (by omega)
    have h7 := hall 7 (by omega)
    have hDL : downloadLoop download 0 8 =
        (none, [2, 4, 6, 8, 10, 12, 14, 16], 8) := by
      simp only [downloadLoop, h0, h1, h2, h3, h4, h5, h6, h7]
      norm_num
    constructor <;> simp [runBatchModel, hfid, hbeq, hofid, hDL]
  · -- poll_batch only returns terminal statuses
    intro stream fuel st
    rw [pollBatchModel]
    generalize 0 = i
    induction fuel generalizing i with
    | zero => intro h; cases h
    | succ f ih =>
        intro h
        rw [pollAux] at h
        by_cases ht : isTerminalStatus (stream i) = true
        · rw [if_pos ht] at h
          cases h
          exact ht
        · rw [if_neg ht] at h
          exact ih (i + 1) h

/-- Witness for C8: a completed job whose `output_file_id` never appears;
the run performs the six refresh retries with linearly increasing sleeps
2,4,6,8,10,12 and never attempts a download. -/
theorem c8_batch_lifecycle_witness :
    (runBatchModel [] [] ⟨"t", "", "", []⟩ (some "f") none
      ⟨some "completed", none⟩ (fun _ => ⟨some "completed", none⟩)
      (fun _ => none)).refreshSleeps = [2, 4, 6, 8, 10, 12] ∧
    (runBatchModel [] [] ⟨"t", "", "", []⟩ (some "f") none
      ⟨some "completed", none⟩ (fun _ => ⟨some "completed", none⟩)
      (fun _ => none)).downloadCalls = 0 :=
  (c8_batch_lifecycle [] [] ⟨"t", "", "", []⟩ (some "f") none
    ⟨some "completed", none⟩ (fun _ => ⟨some "completed", none⟩)
    (fun _ => none)).2.2.1 rfl (by decide) rfl (fun _ _ => rfl)
